import Mathlib

/-!
Shallow embedding of the dbml repository: the schema data model
(src/schema/schema.go), the DBML generator (src/generator/generator.go),
the table filter (src/schema/schema.go), the PostgreSQL type mapper
(src/introspect/typemap.go) and the row-processing / control-flow parts of
the introspector (src/introspect/introspect.go).  Database queries are
modelled as oracles returning `Except`; `sql.NullInt64` is modelled as
`Option Int`; Go byte-slices of UTF-8 text are modelled as `String`.
-/

namespace DBML

/-- Column of a table (src/schema/schema.go).  The Go field `Type` is named
`Typ` here because `Type` is reserved in Lean. -/
structure Column where
  Name : String
  Typ : String
  Nullable : Bool
  DefaultValue : Option String
  IsPrimaryKey : Bool
deriving DecidableEq

/-- Index on a table (src/schema/schema.go). -/
structure Index where
  Name : String
  Columns : List String
  Unique : Bool
deriving DecidableEq

/-- Foreign-key reference (src/schema/schema.go). -/
structure Reference where
  FromTable : String
  FromSchema : String
  FromColumns : List String
  ToTable : String
  ToSchema : String
  ToColumns : List String
  OnDelete : String
  OnUpdate : String
deriving DecidableEq

/-- Table (src/schema/schema.go). -/
structure Table where
  Name : String
  Schema : String
  Columns : List Column
  PrimaryKeys : List String
  Indexes : List Index
  References : List Reference
deriving DecidableEq

/-- Database schema (src/schema/schema.go). -/
structure Schema where
  Tables : List Table
deriving DecidableEq

/-- Lexicographic comparison of character lists: the order of `String`'s `<`
and of Go's `<` on the (ASCII) strings compared in this program, written as
a structurally recursive Boolean so that it evaluates inside the kernel. -/
def charListLt : List Char → List Char → Bool
  | [], [] => false
  | [], _ :: _ => true
  | _ :: _, [] => false
  | a :: as, b :: bs =>
      if a < b then true else if b < a then false else charListLt as bs

/-- Go's `<` on strings (byte-wise lexicographic). -/
def stringLt (a b : String) : Bool := charListLt a.data b.data

/-- Does the first character list start with the second? -/
def startsWithChars : List Char → List Char → Bool
  | _, [] => true
  | [], _ :: _ => false
  | a :: as, b :: bs => if a = b then startsWithChars as bs else false

/-- Go's `strings.HasPrefix s p`, i.e. `s` starts with `p`. -/
def startsWithStr (s p : String) : Bool := startsWithChars s.data p.data

/-- Go's `strings.ToLower` on the ASCII strings used by this program
(lower-case every character). -/
def toLowerStr (s : String) : String := ⟨s.data.map Char.toLower⟩

/-- Insertion step of the model of Go `sort.Slice`: insert `a` after every
element `b` with `less b a`. -/
def goInsert (less : α → α → Bool) (a : α) : List α → List α
  | [] => [a]
  | b :: l => if less b a then b :: goInsert less a l else a :: b :: l

/-- Model of Go `sort.Slice` with comparator `less`: an insertion sort that
orders the list so that `less y x` never holds for `x` before `y`.  Go's
sort is unspecified on ties; this model keeps ties in input order. -/
def goSort (less : α → α → Bool) : List α → List α
  | [] => []
  | a :: l => goInsert less a (goSort less l)

/-- src/generator/generator.go `GetQualifiedTableName`. -/
def GetQualifiedTableName (tableName schemaName : String) : String :=
  if schemaName ≠ "" ∧ schemaName ≠ "public" then schemaName ++ "." ++ tableName
  else tableName

/-- The `attributes` list built inside src/generator/generator.go
`generateColumn`. -/
def columnAttributes (column : Column) : List String :=
  let attributes : List String := []
  let attributes := if column.IsPrimaryKey then attributes ++ ["pk"] else attributes
  let attributes :=
    if !column.Nullable && !column.IsPrimaryKey then attributes ++ ["not null"]
    else attributes
  match column.DefaultValue with
  | some defaultVal =>
      if startsWithStr defaultVal ("nextval(") then attributes ++ ["increment"]
      else attributes ++ ["default: `" ++ defaultVal ++ "`"]
  | none => attributes

/-- src/generator/generator.go `generateColumn` (the text it appends). -/
def generateColumn (column : Column) : String :=
  let attributes := columnAttributes column
  "  " ++ column.Name ++ " " ++ column.Typ ++
    (if attributes.length > 0 then " [" ++ String.intercalate (", ") attributes ++ "]"
     else "") ++ "\n"

/-- One line of the index block, src/generator/generator.go `generateIndexes`
loop body. -/
def generateIndex (index : Index) : String :=
  if index.Unique then
    if index.Columns.length = 1 then
      "    (" ++ index.Columns.headD ("") ++ ") [unique]\n"
    else
      "    (" ++ String.intercalate (", ") index.Columns ++ ") [unique]\n"
  else
    if index.Columns.length = 1 then
      "    " ++ index.Columns.headD ("") ++ "\n"
    else
      "    (" ++ String.intercalate (", ") index.Columns ++ ")\n"

/-- src/generator/generator.go `generateIndexes` (braces written as escapes). -/
def generateIndexes (indexes : List Index) : String :=
  "  indexes \x7b\n" ++ String.join (indexes.map generateIndex) ++ "  \x7d\n"

/-- Comparator of the column sort in src/generator/generator.go
`generateTable`. -/
def lessColumn (a b : Column) : Bool := stringLt a.Name b.Name

/-- Comparator of the index sort in src/generator/generator.go
`generateTable`. -/
def lessIndex (a b : Index) : Bool := stringLt a.Name b.Name

/-- Comparator of the table sort in src/generator/generator.go `Generate`. -/
def lessTable (a b : Table) : Bool :=
  if a.Schema ≠ b.Schema then stringLt a.Schema b.Schema
  else stringLt a.Name b.Name

/-- src/generator/generator.go `generateTable`. -/
def generateTable (table : Table) : String :=
  let tableName :=
    if table.Schema ≠ "" ∧ table.Schema ≠ "public" then table.Schema ++ "." ++ table.Name
    else table.Name
  let sortedColumns := goSort lessColumn table.Columns
  let columnsPart := String.join (sortedColumns.map generateColumn)
  let indexesPart :=
    if table.Indexes.length > 0 then "\n" ++ generateIndexes (goSort lessIndex table.Indexes)
    else ""
  "Table " ++ tableName ++ " \x7b\n" ++ columnsPart ++ indexesPart ++ "\x7d\n"

/-- Comparator of the reference sort in src/generator/generator.go
`Generate` (the `sort.Slice` closure over `allReferences`). -/
def lessRef (refI refJ : Reference) : Bool :=
  let fromTableI := GetQualifiedTableName refI.FromTable refI.FromSchema
  let fromTableJ := GetQualifiedTableName refJ.FromTable refJ.FromSchema
  if fromTableI ≠ fromTableJ then stringLt fromTableI fromTableJ
  else if refI.FromColumns.length > 0 ∧ refJ.FromColumns.length > 0 ∧
      refI.FromColumns.headD ("") ≠ refJ.FromColumns.headD ("") then
    stringLt (refI.FromColumns.headD ("")) (refJ.FromColumns.headD (""))
  else
    let toTableI := GetQualifiedTableName refI.ToTable refI.ToSchema
    let toTableJ := GetQualifiedTableName refJ.ToTable refJ.ToSchema
    if toTableI ≠ toTableJ then stringLt toTableI toTableJ
    else if refI.ToColumns.length > 0 ∧ refJ.ToColumns.length > 0 then
      stringLt (refI.ToColumns.headD ("")) (refJ.ToColumns.headD (""))
    else false

/-- src/generator/generator.go `generateReference`. -/
def generateReference (ref : Reference) : String :=
  let fromTable := GetQualifiedTableName ref.FromTable ref.FromSchema
  let toTable := GetQualifiedTableName ref.ToTable ref.ToSchema
  let fromRef :=
    if ref.FromColumns.length = 1 then fromTable ++ "." ++ ref.FromColumns.headD ("")
    else fromTable ++ ".(" ++ String.intercalate (", ") ref.FromColumns ++ ")"
  let toRef :=
    if ref.ToColumns.length = 1 then toTable ++ "." ++ ref.ToColumns.headD ("")
    else toTable ++ ".(" ++ String.intercalate (", ") ref.ToColumns ++ ")"
  let refAttributes : List String :=
    (if ref.OnDelete ≠ "NO ACTION" ∧ ref.OnDelete ≠ "" then
       ["delete: " ++ toLowerStr ref.OnDelete]
     else []) ++
    (if ref.OnUpdate ≠ "NO ACTION" ∧ ref.OnUpdate ≠ "" then
       ["update: " ++ toLowerStr ref.OnUpdate]
     else [])
  "Ref: " ++ fromRef ++ " > " ++ toRef ++
    (if refAttributes.length > 0 then " [" ++ String.intercalate (", ") refAttributes ++ "]"
     else "") ++ "\n"

/-- Text produced by src/generator/generator.go `Generate`. -/
def generateOut (s : Schema) : String :=
  let sortedTables := goSort lessTable s.Tables
  let tablesPart := String.join (sortedTables.map (fun t => generateTable t ++ "\n"))
  let allReferences := sortedTables.foldl (fun acc t => acc ++ t.References) []
  let sortedReferences := goSort lessRef allReferences
  tablesPart ++ String.join (sortedReferences.map generateReference)

/-- src/generator/generator.go `Generate`: returns the DBML text together
with the error value, which the source always returns as `nil` (`none`). -/
def Generate (s : Schema) : String × Option String :=
  (generateOut s, none)

/-- The `excludeMap` built by src/schema/schema.go `FilterTables`. -/
def buildExcludeMap (excludeTables : List String) : String → Bool :=
  excludeTables.foldl (fun m t => fun n => if n = t then true else m n) (fun _ => false)

/-- src/schema/schema.go `FilterTables`. -/
def FilterTables (s : Schema) (excludeTables : List String) : Schema :=
  let excludeMap := buildExcludeMap excludeTables
  let filteredTables :=
    s.Tables.foldl (fun acc table => if excludeMap table.Name then acc else acc ++ [table]) []
  ⟨filteredTables⟩

/-- src/introspect/typemap.go `NormalizeTypeName`. -/
def NormalizeTypeName (typeName : String) : String :=
  match toLowerStr typeName with
  | "address" | "contact_method" | "offering" | "provider" | "carrier"
  | "direction" | "status" | "business_type" | "industry" | "cta" => "text"
  | _ => "text"

/-- src/introspect/typemap.go `NormalizeCustomType`. -/
def NormalizeCustomType (typeName : String) : String :=
  if startsWithStr typeName ("_") then NormalizeTypeName (typeName.drop 1)
  else NormalizeTypeName typeName

/-- src/introspect/typemap.go `MapPostgreSQLTypeToDBML`; `sql.NullInt64`
arguments are modelled as `Option Int`. -/
def MapPostgreSQLTypeToDBML (dataType udtName : String)
    (charMaxLength numericPrecision numericScale : Option Int) : String :=
  match toLowerStr dataType with
  | "integer" | "int4" => "int"
  | "bigint" | "int8" => "bigint"
  | "smallint" | "int2" => "smallint"
  | "boolean" | "bool" => "boolean"
  | "character varying" | "varchar" =>
      match charMaxLength with
      | some n => "varchar(" ++ toString n ++ ")"
      | none => "varchar"
  | "character" | "char" =>
      match charMaxLength with
      | some n => "char(" ++ toString n ++ ")"
      | none => "char"
  | "text" => "text"
  | "numeric" | "decimal" =>
      match numericPrecision, numericScale with
      | some p, some sc => "decimal(" ++ toString p ++ "," ++ toString sc ++ ")"
      | _, _ => "decimal"
  | "real" | "float4" => "float"
  | "double precision" | "float8" => "double"
  | "timestamp without time zone" | "timestamp" => "timestamp"
  | "timestamp with time zone" | "timestamptz" => "timestamptz"
  | "date" => "date"
  | "time without time zone" | "time" => "time"
  | "time with time zone" | "timetz" => "timetz"
  | "uuid" => "uuid"
  | "json" => "json"
  | "jsonb" => "jsonb"
  | "bytea" => "binary"
  | "user-defined" => NormalizeCustomType udtName
  | "array" => NormalizeCustomType udtName
  | _ => dataType

/-- src/introspect/typemap.go `PostgreSQLTypeMapper`.  The Go map (possibly
`nil`) is modelled as an optional association list with distinct keys. -/
structure PostgreSQLTypeMapper where
  CustomMappings : Option (List (String × String))

/-- Lookup in the modelled `CustomMappings` map. -/
def mapLookupStr (m : List (String × String)) (k : String) : Option String :=
  (m.find? (fun p => p.1 == k)).map (fun p => p.2)

/-- src/introspect/typemap.go `(*PostgreSQLTypeMapper).MapType`. -/
def PostgreSQLTypeMapper.MapType (m : PostgreSQLTypeMapper) (dataType udtName : String)
    (charMaxLength numericPrecision numericScale : Option Int) : String :=
  match m.CustomMappings with
  | some cm =>
      match mapLookupStr cm (toLowerStr dataType) with
      | some mapped => mapped
      | none =>
          match mapLookupStr cm (toLowerStr udtName) with
          | some mapped => mapped
          | none =>
              MapPostgreSQLTypeToDBML dataType udtName charMaxLength numericPrecision
                numericScale
  | none =>
      MapPostgreSQLTypeToDBML dataType udtName charMaxLength numericPrecision numericScale

/-- One row of the foreign-key catalog query of src/introspect/introspect.go
`getForeignKeys`, in the order the columns are scanned. -/
structure FKRow where
  columnName : String
  foreignTableSchema : String
  foreignTableName : String
  foreignColumnName : String
  deleteRule : String
  updateRule : String
  ordinalPosition : Nat
deriving DecidableEq

/-- The deduplication key string built in src/introspect/introspect.go
`getForeignKeys` via `fmt.Sprintf`. -/
def fkKey (schemaName tableName fromColumn toSchema toTable toColumn : String) : String :=
  schemaName ++ "." ++ tableName ++ "." ++ fromColumn ++ "->" ++
    toSchema ++ "." ++ toTable ++ "." ++ toColumn

/-- Deduplication key of a catalog row. -/
def rowKey (schemaName tableName : String) (row : FKRow) : String :=
  fkKey schemaName tableName row.columnName row.foreignTableSchema row.foreignTableName
    row.foreignColumnName

/-- Deduplication key recomputed from a `Reference`'s own fields. -/
def refKeyOf (ref : Reference) : String :=
  fkKey ref.FromSchema ref.FromTable (ref.FromColumns.headD ("")) ref.ToSchema ref.ToTable
    (ref.ToColumns.headD (""))

/-- Lookup in the modelled Go map `referenceMap` (association list with
distinct keys). -/
def mapLookupRef : List (String × Reference) → String → Option Reference
  | [], _ => none
  | p :: rest, k => if p.1 = k then some p.2 else mapLookupRef rest k

/-- Assignment `referenceMap[key] = v` on the association-list model. -/
def mapInsertRef : List (String × Reference) → String → Reference → List (String × Reference)
  | [], k, v => [(k, v)]
  | p :: rest, k, v => if p.1 = k then (k, v) :: rest else p :: mapInsertRef rest k v

/-- Body of the row loop of src/introspect/introspect.go `getForeignKeys`:
build the single-column reference, look it up by key, merge delete/update
rules into an existing entry or insert it. -/
def processFKRow (schemaName tableName : String) (m : List (String × Reference))
    (row : FKRow) : List (String × Reference) :=
  let ref : Reference :=
    { FromTable := tableName, FromSchema := schemaName, FromColumns := [row.columnName],
      ToTable := row.foreignTableName, ToSchema := row.foreignTableSchema,
      ToColumns := [row.foreignColumnName],
      OnDelete := row.deleteRule, OnUpdate := row.updateRule }
  let key := rowKey schemaName tableName row
  match mapLookupRef m key with
  | some existing =>
      let existing :=
        if ref.OnDelete ≠ "NO ACTION" ∧ ref.OnDelete ≠ "" ∧ existing.OnDelete = "NO ACTION"
        then { existing with OnDelete := ref.OnDelete } else existing
      let existing :=
        if ref.OnUpdate ≠ "NO ACTION" ∧ ref.OnUpdate ≠ "" ∧ existing.OnUpdate = "NO ACTION"
        then { existing with OnUpdate := ref.OnUpdate } else existing
      mapInsertRef m key existing
  | none => mapInsertRef m key ref

/-- src/introspect/introspect.go `getForeignKeys`, applied to the list of
catalog rows the query returned: fold the rows into the map, sort the keys
(`sort.Strings`), and emit the references in key order. -/
def getForeignKeys (schemaName tableName : String) (rows : List FKRow) : List Reference :=
  let referenceMap := rows.foldl (processFKRow schemaName tableName) []
  let keys := goSort stringLt (referenceMap.map (fun p => p.1))
  keys.filterMap (fun k => mapLookupRef referenceMap k)

/-- The database handle as seen by src/introspect/introspect.go
`introspectSchemas`: each per-schema / per-table catalog query is an oracle
that either returns its rows (already decoded) or fails with an error
message. -/
structure DBOracle where
  getTables : String → Except String (List String)
  getColumns : String → String → Except String (List Column)
  getPrimaryKeys : String → String → Except String (List String)
  getIndexes : String → String → Except String (List Index)
  getForeignKeys : String → String → Except String (List Reference)

/-- The primary-key marking loop of src/introspect/introspect.go
`introspectSchemas` (set `IsPrimaryKey` on columns named in the key list). -/
def markPrimaryKeys (columns : List Column) (primaryKeys : List String) : List Column :=
  columns.map (fun c =>
    if primaryKeys.contains c.Name then { c with IsPrimaryKey := true } else c)

/-- Per-table body of src/introspect/introspect.go `introspectSchemas`:
fetch columns, primary keys, indexes and foreign keys, wrapping any failure
with the schema, table and operation. -/
def introspectTable (db : DBOracle) (schemaName tableName : String) : Except String Table :=
  match db.getColumns schemaName tableName with
  | .error e =>
      .error ("failed to get columns for table " ++ schemaName ++ "." ++ tableName ++ ": " ++ e)
  | .ok columns =>
    match db.getPrimaryKeys schemaName tableName with
    | .error e =>
        .error ("failed to get primary keys for table " ++ schemaName ++ "." ++ tableName ++
          ": " ++ e)
    | .ok primaryKeys =>
      match db.getIndexes schemaName tableName with
      | .error e =>
          .error ("failed to get indexes for table " ++ schemaName ++ "." ++ tableName ++
            ": " ++ e)
      | .ok indexes =>
        match db.getForeignKeys schemaName tableName with
        | .error e =>
            .error ("failed to get foreign keys for table " ++ schemaName ++ "." ++ tableName ++
              ": " ++ e)
        | .ok references =>
            .ok { Name := tableName, Schema := schemaName,
                  Columns := markPrimaryKeys columns primaryKeys,
                  PrimaryKeys := primaryKeys, Indexes := indexes, References := references }

/-- The per-table loop of src/introspect/introspect.go `introspectSchemas`
over one schema's tables, aborting at the first failure. -/
def introspectTablesLoop (db : DBOracle) (schemaName : String) :
    List String → Except String (List Table)
  | [] => .ok []
  | t :: ts =>
    match introspectTable db schemaName t with
    | .error e => .error e
    | .ok table =>
      match introspectTablesLoop db schemaName ts with
      | .error e => .error e
      | .ok tables => .ok (table :: tables)

/-- The per-schema loop of src/introspect/introspect.go `introspectSchemas`,
aborting at the first failure. -/
def introspectSchemasLoop (db : DBOracle) : List String → Except String (List Table)
  | [] => .ok []
  | s :: ss =>
    match db.getTables s with
    | .error e => .error ("failed to get tables for schema " ++ s ++ ": " ++ e)
    | .ok ts =>
      match introspectTablesLoop db s ts with
      | .error e => .error e
      | .ok tables =>
        match introspectSchemasLoop db ss with
        | .error e => .error e
        | .ok rest => .ok (tables ++ rest)

/-- src/introspect/introspect.go `introspectSchemas`.  An empty schema list
defaults to `["public"]`; any failure aborts the whole introspection. -/
def introspectSchemas (db : DBOracle) (schemaNames : List String) : Except String Schema :=
  let schemaNames := if schemaNames.length = 0 then ["public"] else schemaNames
  match introspectSchemasLoop db schemaNames with
  | .error e => .error e
  | .ok tables => .ok ⟨tables⟩

/-- The claim's notion of reordering one table: same name, schema and
primary-key list, with the `Columns`, `Indexes` and `References` slices
permuted. -/
def TablePerm (t u : Table) : Prop :=
  t.Name = u.Name ∧ t.Schema = u.Schema ∧ t.PrimaryKeys = u.PrimaryKeys ∧
  t.Columns.Perm u.Columns ∧ t.Indexes.Perm u.Indexes ∧ t.References.Perm u.References

/-- The claim's notion of reordering a schema model: permute the `Tables`
slice and, inside each table, the `Columns`, `Indexes` and `References`
slices. -/
def SchemaPerm (s s' : Schema) : Prop :=
  ∃ m, List.Forall₂ TablePerm s.Tables m ∧ m.Perm s'.Tables

/-- Sort key of the table sort of `Generate`: lexicographic on
(schema, name). -/
def tableKey (t : Table) : Lex (String × String) := toLex (t.Schema, t.Name)

/-- Sort key of the reference sort of `Generate`: lexicographic on
(qualified source table, first source column, qualified target table,
first target column). -/
def refKey (r : Reference) : Lex (String × Lex (String × Lex (String × String))) :=
  toLex (GetQualifiedTableName r.FromTable r.FromSchema,
    toLex (r.FromColumns.headD (""),
      toLex (GetQualifiedTableName r.ToTable r.ToSchema, r.ToColumns.headD (""))))

/-- Every reference of every table of a schema, in model order. -/
def allRefs (s : Schema) : List Reference :=
  s.Tables.flatMap (fun t => t.References)

/-- The `users` table of the C1 scenario, columns in catalog (ordinal)
order. -/
def c1users : Table :=
  { Name := "users", Schema := "public",
    Columns :=
      [{ Name := "id", Typ := "int", Nullable := false, DefaultValue := none,
         IsPrimaryKey := true },
       { Name := "email", Typ := "varchar(255)", Nullable := false, DefaultValue := none,
         IsPrimaryKey := false },
       { Name := "name", Typ := "varchar(100)", Nullable := true, DefaultValue := none,
         IsPrimaryKey := false }],
    PrimaryKeys := ["id"],
    Indexes := [{ Name := "users_email_key", Columns := ["email"], Unique := true }],
    References := [] }

/-- The `posts` table of the C1 scenario. -/
def c1posts : Table :=
  { Name := "posts", Schema := "public",
    Columns :=
      [{ Name := "id", Typ := "int", Nullable := false, DefaultValue := none,
         IsPrimaryKey := true },
       { Name := "user_id", Typ := "int", Nullable := false, DefaultValue := none,
         IsPrimaryKey := false }],
    PrimaryKeys := ["id"],
    Indexes := [],
    References :=
      [{ FromTable := "posts", FromSchema := "public", FromColumns := ["user_id"],
         ToTable := "users", ToSchema := "public", ToColumns := ["id"],
         OnDelete := "CASCADE", OnUpdate := "NO ACTION" }] }

/-- The two-table model of the C1 scenario. -/
def c1schema : Schema := ⟨[c1users, c1posts]⟩

/-- The output text asserted by claim C1 (users block first). -/
def c1claimText : String :=
  "Table users \x7b\n  email varchar(255) [not null]\n  id int [pk]\n  name varchar(100)\n\n  indexes \x7b\n    (email) [unique]\n  \x7d\n\x7d\n\nTable posts \x7b\n  id int [pk]\n  user_id int [not null]\n\x7d\n\nRef: posts.user_id > users.id [delete: cascade]\n"

/-- The output text the generator actually produces for the C1 scenario
(tables sorted alphabetically, so posts block first). -/
def c1codeText : String :=
  "Table posts \x7b\n  id int [pk]\n  user_id int [not null]\n\x7d\n\nTable users \x7b\n  email varchar(255) [not null]\n  id int [pk]\n  name varchar(100)\n\n  indexes \x7b\n    (email) [unique]\n  \x7d\n\x7d\n\nRef: posts.user_id > users.id [delete: cascade]\n"

/-- A reference used by the C2 counterexample. -/
def c2ref1 : Reference :=
  { FromTable := "a", FromSchema := "public", FromColumns := ["x"],
    ToTable := "b", ToSchema := "public", ToColumns := ["y"],
    OnDelete := "CASCADE", OnUpdate := "NO ACTION" }

/-- A second reference equal to `c2ref1` on the whole reference sort key but
with a different delete action. -/
def c2ref2 : Reference :=
  { FromTable := "a", FromSchema := "public", FromColumns := ["x"],
    ToTable := "b", ToSchema := "public", ToColumns := ["y"],
    OnDelete := "RESTRICT", OnUpdate := "NO ACTION" }

/-- A one-table schema holding the given references. -/
def c2table (refs : List Reference) : Table :=
  { Name := "a", Schema := "public", Columns := [], PrimaryKeys := [], Indexes := [],
    References := refs }

/-- C2 counterexample model. -/
def c2schemaA : Schema := ⟨[c2table [c2ref1, c2ref2]]⟩

/-- C2 counterexample model with the two references swapped. -/
def c2schemaB : Schema := ⟨[c2table [c2ref2, c2ref1]]⟩

/-- Oracle of the C5 witness: listing tables succeeds, fetching columns
fails. -/
def c5db : DBOracle :=
  { getTables := fun s => if s = "public" then .ok ["users"] else .ok [],
    getColumns := fun _ _ => .error "boom",
    getPrimaryKeys := fun _ _ => .ok [],
    getIndexes := fun _ _ => .ok [],
    getForeignKeys := fun _ _ => .ok [] }

/-- The users table with its columns slice permuted (used by the C2 witness). -/
def c1usersPerm : Table :=
  { c1users with
    Columns :=
      [{ Name := "name", Typ := "varchar(100)", Nullable := true, DefaultValue := none,
         IsPrimaryKey := false },
       { Name := "email", Typ := "varchar(255)", Nullable := false, DefaultValue := none,
         IsPrimaryKey := false },
       { Name := "id", Typ := "int", Nullable := false, DefaultValue := none,
         IsPrimaryKey := true }] }

/-- The C1 model with the tables slice and the users columns permuted (used
by the C2 witness). -/
def c1schemaPerm : Schema := ⟨[c1posts, c1usersPerm]⟩

/-- An auto-increment column (used by the C6 witness). -/
def c6column : Column :=
  { Name := "id", Typ := "int", Nullable := false,
    DefaultValue := some ("nextval(public.users_id_seq::regclass)"), IsPrimaryKey := false }

/-- A type mapper with one custom mapping (used by the C8 witness). -/
def c8mapper : PostgreSQLTypeMapper := ⟨some [("citext", "varchar")]⟩

/-- A foreign-key catalog row (used by the C3 and C10 witnesses). -/
def c3row1 : FKRow :=
  { columnName := "user_id", foreignTableSchema := "public", foreignTableName := "users",
    foreignColumnName := "id", deleteRule := "CASCADE", updateRule := "NO ACTION",
    ordinalPosition := 1 }

/-- A second catalog row for the same constraint tuple as `c3row1` but with
delete rule NO ACTION. -/
def c3row2 : FKRow :=
  { columnName := "user_id", foreignTableSchema := "public", foreignTableName := "users",
    foreignColumnName := "id", deleteRule := "NO ACTION", updateRule := "NO ACTION",
    ordinalPosition := 1 }

/-- The reference produced by introspecting `c3row1` alone (used by the
C10 witness). -/
def c10ref : Reference :=
  { FromTable := "posts", FromSchema := "public", FromColumns := ["user_id"],
    ToTable := "users", ToSchema := "public", ToColumns := ["id"],
    OnDelete := "CASCADE", OnUpdate := "NO ACTION" }

/-! ### The Boolean string comparison agrees with the `String` order -/

theorem charListLt_iff : ∀ l₁ l₂ : List Char, charListLt l₁ l₂ = true ↔ l₁ < l₂ := by
  intro l₁
  induction l₁ with
  | nil =>
    intro l₂
    cases l₂ with
    | nil => exact iff_of_false Bool.false_ne_true (fun h => nomatch h)
    | cons b bs => exact iff_of_true rfl List.Lex.nil
  | cons a as ih =>
    intro l₂
    cases l₂ with
    | nil => exact iff_of_false Bool.false_ne_true (fun h => nomatch h)
    | cons b bs =>
      show (if a < b then true else if b < a then false else charListLt as bs) = true
        ↔ a :: as < b :: bs
      by_cases hab : a < b
      · rw [if_pos hab]
        exact iff_of_true rfl (List.Lex.rel hab)
      · rw [if_neg hab]
        by_cases hba : b < a
        · rw [if_pos hba]
          refine iff_of_false Bool.false_ne_true ?_
          intro h
          cases h with
          | cons h => exact lt_irrefl a hba
          | rel h => exact hab h
        · rw [if_neg hba]
          have heq : a = b := le_antisymm (le_of_not_lt hba) (le_of_not_lt hab)
          subst heq
          rw [ih bs]
          constructor
          · exact fun h => List.Lex.cons h
          · intro h
            cases h with
            | cons h => exact h
            | rel h => exact absurd h (lt_irrefl a)

theorem stringLt_eq_decide (a b : String) [inst : Decidable (a < b)] :
    stringLt a b = decide (a < b) := by
  by_cases h : a < b
  · rw [decide_eq_true h]
    exact (charListLt_iff a.data b.data).mpr (String.lt_iff_toList_lt.mp h)
  · rw [decide_eq_false h]
    cases hc : charListLt a.data b.data with
    | false => exact hc
    | true =>
      exact absurd (String.lt_iff_toList_lt.mpr ((charListLt_iff _ _).mp hc)) h

/-! ### Sorting lemmas for the `sort.Slice` model -/

theorem goInsert_perm {α : Type _} (less : α → α → Bool) (a : α) (l : List α) :
    (goInsert less a l).Perm (a :: l) := by
  induction l with
  | nil => exact List.Perm.refl _
  | cons b l ih =>
    simp only [goInsert]
    split
    · exact (ih.cons b).trans (List.Perm.swap a b l)
    · exact List.Perm.refl _

theorem goSort_perm {α : Type _} (less : α → α → Bool) (l : List α) :
    (goSort less l).Perm l := by
  induction l with
  | nil => exact List.Perm.refl _
  | cons a l ih => exact (goInsert_perm less a (goSort less l)).trans (ih.cons a)

theorem mem_goSort {α : Type _} {less : α → α → Bool} {x : α} {l : List α} :
    x ∈ goSort less l ↔ x ∈ l :=
  (goSort_perm less l).mem_iff

theorem pairwise_goInsert {α κ : Type _} [LinearOrder κ] (key : α → κ) (less : α → α → Bool)
    (a : α) (l : List α)
    (hag : ∀ x ∈ a :: l, ∀ y ∈ a :: l, less x y = decide (key x < key y))
    (hnd : ((a :: l).map key).Nodup)
    (hp : l.Pairwise (fun x y => key x < key y)) :
    (goInsert less a l).Pairwise (fun x y => key x < key y) := by
  induction l with
  | nil => simp [goInsert]
  | cons b l ih =>
    have hab : less b a = decide (key b < key a) :=
      hag b (by simp) a (by simp)
    simp only [goInsert]
    split
    case isTrue h =>
      rw [hab] at h
      have hba : key b < key a := of_decide_eq_true h
      refine List.pairwise_cons.mpr ⟨?_, ?_⟩
      · intro x hx
        rcases List.mem_cons.mp ((goInsert_perm less a l).mem_iff.mp hx) with hxa | hxl
        · exact hxa ▸ hba
        · exact List.rel_of_pairwise_cons hp hxl
      · refine ih ?_ ?_ ((List.pairwise_cons.mp hp).2)
        · intro x hx y hy
          have hsub : a :: l ⊆ a :: b :: l := by
            intro z hz
            rcases List.mem_cons.mp hz with h1 | h1
            · exact h1 ▸ List.mem_cons_self z (b :: l)
            · exact List.mem_cons_of_mem a (List.mem_cons_of_mem b h1)
          exact hag x (hsub hx) y (hsub hy)
        · exact hnd.sublist (((List.sublist_cons_self b l).cons₂ a).map key)
    case isFalse h =>
      rw [hab] at h
      have hnba : ¬ key b < key a := of_decide_eq_false (Bool.not_eq_true _ ▸ h)
      have hne : key a ≠ key b := by
        have := (List.nodup_cons.mp hnd).1
        simp only [List.map_cons, List.mem_cons] at this
        exact fun hEq => this (Or.inl hEq)
      have hkab : key a < key b := lt_of_le_of_ne (le_of_not_lt hnba) hne
      refine List.pairwise_cons.mpr ⟨?_, hp⟩
      intro x hx
      rcases List.mem_cons.mp hx with h1 | h1
      · exact h1 ▸ hkab
      · exact hkab.trans (List.rel_of_pairwise_cons hp h1)

theorem pairwise_goSort {α κ : Type _} [LinearOrder κ] (key : α → κ) (less : α → α → Bool)
    (l : List α)
    (hag : ∀ x ∈ l, ∀ y ∈ l, less x y = decide (key x < key y))
    (hnd : (l.map key).Nodup) :
    (goSort less l).Pairwise (fun x y => key x < key y) := by
  induction l with
  | nil => simp [goSort]
  | cons a l ih =>
    simp only [goSort]
    have hmemsub : ∀ x ∈ a :: goSort less l, x ∈ a :: l := by
      intro x hx
      rcases List.mem_cons.mp hx with h1 | h1
      · exact h1 ▸ List.mem_cons_self a l
      · exact List.mem_cons_of_mem a (mem_goSort.mp h1)
    rw [List.map_cons] at hnd
    have hndc := List.nodup_cons.mp hnd
    refine pairwise_goInsert key less a (goSort less l) ?_ ?_ ?_
    · intro x hx y hy
      exact hag x (hmemsub x hx) y (hmemsub y hy)
    · simp only [List.map_cons, List.nodup_cons]
      refine ⟨?_, ?_⟩
      · intro hmem
        exact hndc.1 (((goSort_perm less l).map key).mem_iff.mp hmem)
      · exact ((goSort_perm less l).map key).symm.nodup hndc.2
    · refine ih ?_ hndc.2
      intro x hx y hy
      exact hag x (List.mem_cons_of_mem a hx) y (List.mem_cons_of_mem a hy)

theorem goSort_eq_of_perm {α κ : Type _} [LinearOrder κ] (key : α → κ) (less : α → α → Bool)
    {l₁ l₂ : List α} (p : l₁.Perm l₂)
    (hag : ∀ x ∈ l₁, ∀ y ∈ l₁, less x y = decide (key x < key y))
    (hnd : (l₁.map key).Nodup) :
    goSort less l₁ = goSort less l₂ := by
  have hag₂ : ∀ x ∈ l₂, ∀ y ∈ l₂, less x y = decide (key x < key y) := fun x hx y hy =>
    hag x (p.mem_iff.mpr hx) y (p.mem_iff.mpr hy)
  have hnd₂ : (l₂.map key).Nodup := (p.map key).nodup hnd
  exact List.Perm.eq_of_sorted
    (fun a b _ _ hab hba => absurd hba (lt_asymm hab))
    (pairwise_goSort key less l₁ hag hnd)
    (pairwise_goSort key less l₂ hag₂ hnd₂)
    ((goSort_perm less l₁).trans (p.trans (goSort_perm less l₂).symm))

/-! ### Transport of `goSort` along permutations up to a relation -/

theorem map_key_eq_of_forall₂ {α κ : Type _} (key : α → κ) {R : α → α → Prop}
    (hpres : ∀ x y, R x y → key x = key y) :
    ∀ {l m : List α}, List.Forall₂ R l m → l.map key = m.map key := by
  intro l m h
  induction h with
  | nil => rfl
  | cons hr _ ih => simp only [List.map_cons, hpres _ _ hr, ih]

theorem forall₂_exists_partner {α : Type _} {R : α → α → Prop} :
    ∀ {l m : List α}, List.Forall₂ R l m → ∀ x ∈ l, ∃ y, y ∈ m ∧ R x y := by
  intro l m h
  induction h with
  | nil => intro x hx; exact absurd hx (List.not_mem_nil x)
  | cons hr _ ih =>
    intro x hx
    rcases List.mem_cons.mp hx with h1 | h1
    · exact ⟨_, List.mem_cons_self _ _, h1 ▸ hr⟩
    · obtain ⟨y, hy, hry⟩ := ih x h1
      exact ⟨y, List.mem_cons_of_mem _ hy, hry⟩

theorem forall₂_of_map_key_eq {α κ : Type _} (key : α → κ) {R : α → α → Prop} :
    ∀ {l₁ l₂ : List α}, l₁.map key = l₂.map key →
      (∀ x ∈ l₁, ∀ y ∈ l₂, key x = key y → R x y) → List.Forall₂ R l₁ l₂ := by
  intro l₁
  induction l₁ with
  | nil =>
    intro l₂ h _
    cases l₂ with
    | nil => exact List.Forall₂.nil
    | cons b t => simp at h
  | cons a t ih =>
    intro l₂ h hr
    cases l₂ with
    | nil => simp at h
    | cons b t₂ =>
      simp only [List.map_cons, List.cons.injEq] at h
      refine List.Forall₂.cons (hr a (by simp) b (by simp) h.1) ?_
      exact ih h.2 fun x hx y hy =>
        hr x (List.mem_cons_of_mem a hx) y (List.mem_cons_of_mem b hy)

theorem forall₂_goSort {α κ : Type _} [LinearOrder κ] (key : α → κ) (less : α → α → Bool)
    {R : α → α → Prop} {l₁ m l₂ : List α}
    (hf : List.Forall₂ R l₁ m) (pm : m.Perm l₂)
    (hpres : ∀ x y, R x y → key x = key y)
    (hag : ∀ x y, less x y = decide (key x < key y))
    (hnd : (l₁.map key).Nodup) :
    List.Forall₂ R (goSort less l₁) (goSort less l₂) := by
  have hmk : l₁.map key = m.map key := map_key_eq_of_forall₂ key hpres hf
  have hndm : (m.map key).Nodup := hmk ▸ hnd
  have hnd₂ : (l₂.map key).Nodup := (pm.map key).nodup hndm
  have hs₁ := pairwise_goSort key less l₁ (fun x _ y _ => hag x y) hnd
  have hs₂ := pairwise_goSort key less l₂ (fun x _ y _ => hag x y) hnd₂
  have hperm : ((goSort less l₁).map key).Perm ((goSort less l₂).map key) := by
    refine ((goSort_perm less l₁).map key).trans ?_
    rw [hmk]
    exact (pm.map key).trans ((goSort_perm less l₂).map key).symm
  have hm₁ : ((goSort less l₁).map key).Pairwise (fun x y : κ => x < y) :=
    hs₁.map key fun a b h => h
  have hm₂ : ((goSort less l₂).map key).Pairwise (fun x y : κ => x < y) :=
    hs₂.map key fun a b h => h
  have hmapeq : (goSort less l₁).map key = (goSort less l₂).map key :=
    List.Perm.eq_of_sorted (fun a b _ _ hab hba => absurd hba (lt_asymm hab)) hm₁ hm₂ hperm
  refine forall₂_of_map_key_eq key hmapeq ?_
  intro x hx y hy hkey
  have hx₁ : x ∈ l₁ := mem_goSort.mp hx
  have hy₂ : y ∈ l₂ := mem_goSort.mp hy
  obtain ⟨y', hy'm, hr⟩ := forall₂_exists_partner hf x hx₁
  have hky' : key y' = key x := (hpres x y' hr).symm
  have hy'2 : y' ∈ l₂ := pm.mem_iff.mp hy'm
  have hyy : y = y' :=
    List.inj_on_of_nodup_map hnd₂ hy₂ hy'2 (by rw [← hkey, hky'])
  exact hyy ▸ hr

/-! ### Agreement of the Go comparators with their sort keys -/

theorem lessTable_agree (a b : Table) : lessTable a b = decide (tableKey a < tableKey b) := by
  unfold lessTable tableKey
  by_cases h : a.Schema = b.Schema
  · rw [if_neg (not_not_intro h), stringLt_eq_decide, decide_eq_decide, Prod.Lex.lt_iff]
    simp [h, lt_self_iff_false]
  · rw [if_pos h, stringLt_eq_decide, decide_eq_decide, Prod.Lex.lt_iff]
    simp [h]

theorem refKey_lt_iff (a b : Reference) :
    refKey a < refKey b ↔
      (GetQualifiedTableName a.FromTable a.FromSchema
          < GetQualifiedTableName b.FromTable b.FromSchema ∨
        (GetQualifiedTableName a.FromTable a.FromSchema
            = GetQualifiedTableName b.FromTable b.FromSchema ∧
          (a.FromColumns.headD ("") < b.FromColumns.headD ("") ∨
            (a.FromColumns.headD ("") = b.FromColumns.headD ("") ∧
              (GetQualifiedTableName a.ToTable a.ToSchema
                  < GetQualifiedTableName b.ToTable b.ToSchema ∨
                (GetQualifiedTableName a.ToTable a.ToSchema
                    = GetQualifiedTableName b.ToTable b.ToSchema ∧
                  a.ToColumns.headD ("") < b.ToColumns.headD (""))))))) := by
  simp only [refKey, Prod.Lex.lt_iff]

theorem lessRef_agree {a b : Reference}
    (ha1 : a.FromColumns ≠ []) (ha2 : a.ToColumns ≠ [])
    (hb1 : b.FromColumns ≠ []) (hb2 : b.ToColumns ≠ []) :
    lessRef a b = decide (refKey a < refKey b) := by
  have la1 : 0 < a.FromColumns.length := List.length_pos.mpr ha1
  have la2 : 0 < a.ToColumns.length := List.length_pos.mpr ha2
  have lb1 : 0 < b.FromColumns.length := List.length_pos.mpr hb1
  have lb2 : 0 < b.ToColumns.length := List.length_pos.mpr hb2
  simp only [lessRef]
  by_cases h1 : GetQualifiedTableName a.FromTable a.FromSchema
      = GetQualifiedTableName b.FromTable b.FromSchema
  · by_cases h2 : a.FromColumns.headD ("") = b.FromColumns.headD ("")
    · by_cases h3 : GetQualifiedTableName a.ToTable a.ToSchema
          = GetQualifiedTableName b.ToTable b.ToSchema
      · rw [if_neg (not_not_intro h1), if_neg (fun hc => hc.2.2 h2),
          if_neg (not_not_intro h3), if_pos ⟨la2, lb2⟩, stringLt_eq_decide,
          decide_eq_decide, refKey_lt_iff]
        simp only [h1, h2, h3, lt_self_iff_false, false_or, eq_self_iff_true, true_and]
      · rw [if_neg (not_not_intro h1), if_neg (fun hc => hc.2.2 h2), if_pos h3,
          stringLt_eq_decide, decide_eq_decide, refKey_lt_iff]
        simp only [h1, h2, lt_self_iff_false, false_or, eq_self_iff_true, true_and]
        exact (or_iff_left fun hq => h3 hq.1).symm
    · rw [if_neg (not_not_intro h1), if_pos ⟨la1, lb1, h2⟩, stringLt_eq_decide,
        decide_eq_decide, refKey_lt_iff]
      simp only [h1, lt_self_iff_false, false_or, eq_self_iff_true, true_and]
      exact (or_iff_left fun hq => h2 hq.1).symm
  · rw [if_pos h1, stringLt_eq_decide, decide_eq_decide, refKey_lt_iff]
    exact (or_iff_left fun hq => h1 hq.1).symm

theorem tablePerm_key {t u : Table} (h : TablePerm t u) : tableKey t = tableKey u := by
  obtain ⟨hn, hs, -, -, -, -⟩ := h
  unfold tableKey
  rw [hn, hs]

/-! ### Congruence of the per-table output under reordering -/

theorem generateTable_congr {t u : Table} (h : TablePerm t u)
    (hndC : (t.Columns.map Column.Name).Nodup)
    (hndI : (t.Indexes.map Index.Name).Nodup) :
    generateTable t = generateTable u := by
  obtain ⟨hn, hs, -, hc, hi, -⟩ := h
  have hcs : goSort lessColumn t.Columns = goSort lessColumn u.Columns :=
    goSort_eq_of_perm Column.Name lessColumn hc
      (fun x _ y _ =>
        (stringLt_eq_decide x.Name y.Name).trans (decide_eq_decide.mpr Iff.rfl)) hndC
  have his : goSort lessIndex t.Indexes = goSort lessIndex u.Indexes :=
    goSort_eq_of_perm Index.Name lessIndex hi
      (fun x _ y _ =>
        (stringLt_eq_decide x.Name y.Name).trans (decide_eq_decide.mpr Iff.rfl)) hndI
  have hlen : t.Indexes.length = u.Indexes.length := hi.length_eq
  simp only [generateTable, hn, hs, hcs, his, hlen]

theorem map_eq_of_forall₂ {α β : Type _} {R : α → α → Prop} {f : α → β} :
    ∀ {l₁ l₂ : List α}, List.Forall₂ R l₁ l₂ →
      (∀ x ∈ l₁, ∀ y, R x y → f x = f y) → l₁.map f = l₂.map f := by
  intro l₁ l₂ h
  induction h with
  | nil => intro; rfl
  | cons hr _ ih =>
    intro hf
    simp only [List.map_cons]
    rw [hf _ (List.mem_cons_self _ _) _ hr,
      ih fun x hx y hy => hf x (List.mem_cons_of_mem _ hx) y hy]

theorem forall₂_refs_perm {l₁ l₂ : List Table} (h : List.Forall₂ TablePerm l₁ l₂) :
    (l₁.flatMap (fun t => t.References)).Perm (l₂.flatMap (fun t => t.References)) := by
  induction h with
  | nil => exact List.Perm.refl _
  | cons hr _ ih =>
    simp only [List.flatMap_cons]
    exact (hr.2.2.2.2.2).append ih

theorem foldl_append_references (l : List Table) (acc : List Reference) :
    l.foldl (fun acc t => acc ++ t.References) acc
      = acc ++ l.flatMap (fun t => t.References) := by
  induction l generalizing acc with
  | nil => simp
  | cons t l ih => simp [List.foldl_cons, ih, List.flatMap_cons]

/-! ### FilterTables lemmas -/

theorem buildExcludeMap_aux (l : List String) (m : String → Bool) (n : String) :
    (l.foldl (fun m t => fun x => if x = t then true else m x) m) n
      = (m n || decide (n ∈ l)) := by
  induction l generalizing m with
  | nil => simp
  | cons t l ih =>
    simp only [List.foldl_cons, ih]
    by_cases h : n = t
    · simp [h]
    · simp [h]

theorem buildExcludeMap_spec (excludeTables : List String) (n : String) :
    buildExcludeMap excludeTables n = decide (n ∈ excludeTables) := by
  unfold buildExcludeMap
  rw [buildExcludeMap_aux]
  simp

theorem filterTables_foldl_aux (ex : List String) (l : List Table) (acc : List Table) :
    (l.foldl (fun acc table => if buildExcludeMap ex table.Name then acc else acc ++ [table]) acc)
      = acc ++ l.filter (fun t => !(decide (t.Name ∈ ex))) := by
  induction l generalizing acc with
  | nil => simp
  | cons t l ih =>
    rw [List.foldl_cons]
    by_cases h : t.Name ∈ ex
    · rw [if_pos (by rw [buildExcludeMap_spec]; exact decide_eq_true h), ih]
      simp [List.filter_cons, h]
    · rw [if_neg fun hc => h (of_decide_eq_true (buildExcludeMap_spec ex t.Name ▸ hc)), ih]
      simp [List.filter_cons, h]

theorem filterTables_eq (s : Schema) (ex : List String) :
    (FilterTables s ex).Tables = s.Tables.filter (fun t => !(decide (t.Name ∈ ex))) := by
  unfold FilterTables
  exact filterTables_foldl_aux ex s.Tables []

theorem length_filter_split {α : Type _} (p : α → Bool) (l : List α) :
    (l.filter (fun x => !(p x))).length + (l.filter p).length = l.length := by
  induction l with
  | nil => rfl
  | cons a l ih =>
    by_cases h : p a
    · simp [List.filter_cons, h]
      omega
    · simp [List.filter_cons, h]
      omega

/-! ### Lemmas about the foreign-key reference map -/

theorem mapLookupRef_none_iff :
    ∀ (m : List (String × Reference)) (k : String),
      mapLookupRef m k = none ↔ k ∉ m.map (fun p => p.1) := by
  intro m k
  induction m with
  | nil => simp [mapLookupRef]
  | cons p rest ih =>
    simp only [mapLookupRef, List.map_cons, List.mem_cons]
    by_cases h : p.1 = k
    · simp [h]
    · simp only [if_neg h, ih]
      constructor
      · intro hnot hor
        rcases hor with h1 | h1
        · exact h h1.symm
        · exact hnot h1
      · intro hnot h1
        exact hnot (Or.inr h1)

theorem mapLookupRef_some_mem :
    ∀ {m : List (String × Reference)} {k : String} {r : Reference},
      mapLookupRef m k = some r → (k, r) ∈ m := by
  intro m
  induction m with
  | nil => intro k r h; exact absurd h (by simp [mapLookupRef])
  | cons p rest ih =>
    intro k r h
    simp only [mapLookupRef] at h
    by_cases hp : p.1 = k
    · rw [if_pos hp] at h
      have hpr : p = (k, r) := Prod.ext hp (Option.some.inj h)
      exact hpr ▸ List.mem_cons_self p rest
    · rw [if_neg hp] at h
      exact List.mem_cons_of_mem p (ih h)

theorem mapLookupRef_isSome_of_mem :
    ∀ {m : List (String × Reference)} {k : String},
      k ∈ m.map (fun p => p.1) → ∃ r, mapLookupRef m k = some r := by
  intro m k hk
  cases hl : mapLookupRef m k with
  | some r => exact ⟨r, rfl⟩
  | none => exact absurd hk ((mapLookupRef_none_iff m k).mp hl)

theorem mapInsertRef_keys_of_mem :
    ∀ (m : List (String × Reference)) (k : String) (v : Reference),
      k ∈ m.map (fun p => p.1) →
      (mapInsertRef m k v).map (fun p => p.1) = m.map (fun p => p.1) := by
  intro m
  induction m with
  | nil => intro k v h; exact absurd h (by simp)
  | cons p rest ih =>
    intro k v h
    simp only [mapInsertRef]
    by_cases hp : p.1 = k
    · rw [if_pos hp]
      simp [hp]
    · rw [if_neg hp]
      simp only [List.map_cons]
      have h' : k ∈ p.1 :: rest.map (fun p => p.1) := by simpa using h
      rcases List.mem_cons.mp h' with h1 | h1
      · exact absurd h1.symm hp
      · rw [ih k v h1]

theorem mapInsertRef_of_notmem :
    ∀ (m : List (String × Reference)) (k : String) (v : Reference),
      k ∉ m.map (fun p => p.1) →
      mapInsertRef m k v = m ++ [(k, v)] := by
  intro m
  induction m with
  | nil => intro k v _; rfl
  | cons p rest ih =>
    intro k v h
    simp only [mapInsertRef]
    have hp : p.1 ≠ k := by
      intro hc
      exact h (by simp [hc])
    rw [if_neg hp, ih k v (fun hc => h (by simp [hc]))]
    simp

theorem mapInsertRef_members :
    ∀ (m : List (String × Reference)) (k : String) (v : Reference) (p : String × Reference),
      p ∈ mapInsertRef m k v → p = (k, v) ∨ p ∈ m := by
  intro m
  induction m with
  | nil =>
    intro k v p hp
    simp only [mapInsertRef] at hp
    exact Or.inl (List.mem_singleton.mp hp)
  | cons q rest ih =>
    intro k v p hp
    simp only [mapInsertRef] at hp
    by_cases hq : q.1 = k
    · rw [if_pos hq] at hp
      rcases List.mem_cons.mp hp with h1 | h1
      · exact Or.inl h1
      · exact Or.inr (List.mem_cons_of_mem q h1)
    · rw [if_neg hq] at hp
      rcases List.mem_cons.mp hp with h1 | h1
      · exact Or.inr (h1 ▸ List.mem_cons_self q rest)
      · rcases ih k v p h1 with h2 | h2
        · exact Or.inl h2
        · exact Or.inr (List.mem_cons_of_mem q h2)

theorem refKeyOf_merge (r : Reference) (d u : String) :
    refKeyOf { r with OnDelete := d, OnUpdate := u } = refKeyOf r := rfl

set_option maxHeartbeats 1000000 in
theorem processFKRow_step (schemaName tableName : String) (m : List (String × Reference))
    (row : FKRow)
    (hnd : (m.map (fun p => p.1)).Nodup)
    (hkey : ∀ p ∈ m, refKeyOf p.2 = p.1)
    (hlen : ∀ p ∈ m, p.2.FromColumns.length = 1 ∧ p.2.ToColumns.length = 1) :
    ((processFKRow schemaName tableName m row).map (fun p => p.1)).Nodup ∧
    (∀ p ∈ processFKRow schemaName tableName m row, refKeyOf p.2 = p.1) ∧
    (∀ p ∈ processFKRow schemaName tableName m row,
      p.2.FromColumns.length = 1 ∧ p.2.ToColumns.length = 1) ∧
    (∀ k, k ∈ (processFKRow schemaName tableName m row).map (fun p => p.1) ↔
      (k ∈ m.map (fun p => p.1) ∨ k = rowKey schemaName tableName row)) := by
  cases hl : mapLookupRef m (rowKey schemaName tableName row) with
  | none =>
    have hnotmem := (mapLookupRef_none_iff _ _).mp hl
    simp only [processFKRow, hl]
    rw [mapInsertRef_of_notmem _ _ _ hnotmem]
    refine ⟨?_, ?_, ?_, ?_⟩
    · rw [List.map_append]
      simp only [List.map_cons, List.map_nil]
      exact List.Nodup.append hnd (List.nodup_singleton _)
        (fun a ha hb => hnotmem (List.mem_singleton.mp hb ▸ ha))
    · intro p hp
      rcases List.mem_append.mp hp with h1 | h1
      · exact hkey p h1
      · rw [List.mem_singleton.mp h1]
        rfl
    · intro p hp
      rcases List.mem_append.mp hp with h1 | h1
      · exact hlen p h1
      · rw [List.mem_singleton.mp h1]
        exact ⟨rfl, rfl⟩
    · intro k
      rw [List.map_append]
      simp [List.mem_append]
  | some existing =>
    have hexmem : (rowKey schemaName tableName row, existing) ∈ m := mapLookupRef_some_mem hl
    have hkmem : rowKey schemaName tableName row ∈ m.map (fun p => p.1) :=
      List.mem_map.mpr ⟨(rowKey schemaName tableName row, existing), hexmem, rfl⟩
    have hek : refKeyOf existing = rowKey schemaName tableName row := by
      have hx := hkey (rowKey schemaName tableName row, existing) hexmem
      simpa using hx
    have hel : existing.FromColumns.length = 1 ∧ existing.ToColumns.length = 1 := by
      have hx := hlen (rowKey schemaName tableName row, existing) hexmem
      simpa using hx
    simp only [processFKRow, hl]
    refine ⟨?_, ?_, ?_, ?_⟩
    · rw [mapInsertRef_keys_of_mem m _ _ hkmem]
      exact hnd
    · intro p hp
      rcases mapInsertRef_members _ _ _ p hp with h1 | h1
      · rw [h1]
        split <;> split <;> exact hek
      · exact hkey p h1
    · intro p hp
      rcases mapInsertRef_members _ _ _ p hp with h1 | h1
      · rw [h1]
        split <;> split <;> exact hel
      · exact hlen p h1
    · intro k
      rw [mapInsertRef_keys_of_mem m _ _ hkmem]
      constructor
      · exact Or.inl
      · intro hor
        rcases hor with h1 | h1
        · exact h1
        · exact h1 ▸ hkmem

theorem foldl_fk_invariant (schemaName tableName : String) :
    ∀ (rows : List FKRow) (m : List (String × Reference)),
      (m.map (fun p => p.1)).Nodup →
      (∀ p ∈ m, refKeyOf p.2 = p.1) →
      (∀ p ∈ m, p.2.FromColumns.length = 1 ∧ p.2.ToColumns.length = 1) →
      (((rows.foldl (processFKRow schemaName tableName) m).map (fun p => p.1)).Nodup ∧
        (∀ p ∈ rows.foldl (processFKRow schemaName tableName) m, refKeyOf p.2 = p.1) ∧
        (∀ p ∈ rows.foldl (processFKRow schemaName tableName) m,
          p.2.FromColumns.length = 1 ∧ p.2.ToColumns.length = 1) ∧
        (∀ k, k ∈ (rows.foldl (processFKRow schemaName tableName) m).map (fun p => p.1) ↔
          (k ∈ m.map (fun p => p.1) ∨ k ∈ rows.map (rowKey schemaName tableName)))) := by
  intro rows
  induction rows with
  | nil =>
    intro m hnd hkey hlen
    exact ⟨hnd, hkey, hlen, fun k => by simp⟩
  | cons row rows ih =>
    intro m hnd hkey hlen
    obtain ⟨snd, skey, slen, skeys⟩ := processFKRow_step schemaName tableName m row hnd hkey hlen
    obtain ⟨fnd, fkey, flen, fkeys⟩ :=
      ih (processFKRow schemaName tableName m row) snd skey slen
    refine ⟨fnd, fkey, flen, ?_⟩
    intro k
    rw [List.foldl_cons] at *
    rw [fkeys k, skeys k]
    simp only [List.map_cons, List.mem_cons]
    constructor
    · intro h
      rcases h with (h1 | h1) | h1
      · exact Or.inl h1
      · exact Or.inr (Or.inl h1)
      · exact Or.inr (Or.inr h1)
    · intro h
      rcases h with h1 | h1 | h1
      · exact Or.inl (Or.inl h1)
      · exact Or.inl (Or.inr h1)
      · exact Or.inr h1

theorem map_refKeyOf_filterMap (m : List (String × Reference))
    (hkey : ∀ p ∈ m, refKeyOf p.2 = p.1) :
    ∀ keys : List String, (∀ k ∈ keys, k ∈ m.map (fun p => p.1)) →
      (keys.filterMap (fun k => mapLookupRef m k)).map refKeyOf = keys := by
  intro keys
  induction keys with
  | nil => intro _; rfl
  | cons k ks ih =>
    intro hks
    obtain ⟨r, hr⟩ := mapLookupRef_isSome_of_mem (hks k (List.mem_cons_self k ks))
    have hkr : refKeyOf r = k := by
      have hx := hkey (k, r) (mapLookupRef_some_mem hr)
      simpa using hx
    have hstep : (List.filterMap (fun k => mapLookupRef m k) (k :: ks))
        = r :: List.filterMap (fun k => mapLookupRef m k) ks := by
      simp [List.filterMap_cons, hr]
    rw [hstep, List.map_cons, hkr, ih (fun x hx => hks x (List.mem_cons_of_mem k hx))]

theorem getForeignKeys_keys (schemaName tableName : String) (rows : List FKRow) :
    (getForeignKeys schemaName tableName rows).map refKeyOf
      = goSort stringLt ((rows.foldl (processFKRow schemaName tableName) []).map
          (fun p => p.1)) := by
  obtain ⟨hnd, hkey, hlen, hkeys⟩ :=
    foldl_fk_invariant schemaName tableName rows [] (by simp) (by simp) (by simp)
  simp only [getForeignKeys]
  refine map_refKeyOf_filterMap _ hkey _ ?_
  intro k hk
  exact mem_goSort.mp hk

theorem getForeignKeys_pair_eq (schemaName tableName : String) (r1 r2 : FKRow)
    (hkeq : rowKey schemaName tableName r1 = rowKey schemaName tableName r2) :
    getForeignKeys schemaName tableName [r1, r2]
      = [{ FromTable := tableName, FromSchema := schemaName,
           FromColumns := [r1.columnName],
           ToTable := r1.foreignTableName, ToSchema := r1.foreignTableSchema,
           ToColumns := [r1.foreignColumnName],
           OnDelete := if r2.deleteRule ≠ "NO ACTION" ∧ r2.deleteRule ≠ "" ∧
               r1.deleteRule = "NO ACTION" then r2.deleteRule else r1.deleteRule,
           OnUpdate := if r2.updateRule ≠ "NO ACTION" ∧ r2.updateRule ≠ "" ∧
               r1.updateRule = "NO ACTION" then r2.updateRule else r1.updateRule }] := by
  by_cases c1 : r2.deleteRule ≠ "NO ACTION" ∧ r2.deleteRule ≠ "" ∧
      r1.deleteRule = "NO ACTION" <;>
    by_cases c2 : r2.updateRule ≠ "NO ACTION" ∧ r2.updateRule ≠ "" ∧
        r1.updateRule = "NO ACTION" <;>
      simp [getForeignKeys, processFKRow, mapLookupRef, mapInsertRef, goSort, goInsert,
        hkeq, c1, c2]

/-! ### Lemmas about the introspection control flow -/

theorem introspectTable_ok_queries (db : DBOracle) (schemaName tableName : String)
    (table : Table) (h : introspectTable db schemaName tableName = .ok table) :
    (∃ v, db.getColumns schemaName tableName = .ok v) ∧
    (∃ v, db.getPrimaryKeys schemaName tableName = .ok v) ∧
    (∃ v, db.getIndexes schemaName tableName = .ok v) ∧
    (∃ v, db.getForeignKeys schemaName tableName = .ok v) := by
  unfold introspectTable at h
  cases hc : db.getColumns schemaName tableName with
  | error e => rw [hc] at h; exact absurd h (by simp)
  | ok columns =>
  rw [hc] at h
  cases hp : db.getPrimaryKeys schemaName tableName with
  | error e => rw [hp] at h; exact absurd h (by simp)
  | ok pks =>
  rw [hp] at h
  cases hi : db.getIndexes schemaName tableName with
  | error e => rw [hi] at h; exact absurd h (by simp)
  | ok idxs =>
  rw [hi] at h
  cases hf : db.getForeignKeys schemaName tableName with
  | error e => rw [hf] at h; exact absurd h (by simp)
  | ok fks => exact ⟨⟨columns, rfl⟩, ⟨pks, rfl⟩, ⟨idxs, rfl⟩, ⟨fks, rfl⟩⟩

theorem introspectTable_error_shape (db : DBOracle) (schemaName tableName : String)
    (e : String) (h : introspectTable db schemaName tableName = .error e) :
    (∃ cause, db.getColumns schemaName tableName = .error cause ∧
      e = "failed to get columns for table " ++ schemaName ++ "." ++ tableName ++ ": "
        ++ cause) ∨
    (∃ cause, db.getPrimaryKeys schemaName tableName = .error cause ∧
      e = "failed to get primary keys for table " ++ schemaName ++ "." ++ tableName ++ ": "
        ++ cause) ∨
    (∃ cause, db.getIndexes schemaName tableName = .error cause ∧
      e = "failed to get indexes for table " ++ schemaName ++ "." ++ tableName ++ ": "
        ++ cause) ∨
    (∃ cause, db.getForeignKeys schemaName tableName = .error cause ∧
      e = "failed to get foreign keys for table " ++ schemaName ++ "." ++ tableName ++ ": "
        ++ cause) := by
  unfold introspectTable at h
  cases hc : db.getColumns schemaName tableName with
  | error e0 =>
    rw [hc] at h
    exact Or.inl ⟨e0, rfl, (Except.error.inj h).symm⟩
  | ok columns =>
  rw [hc] at h
  cases hp : db.getPrimaryKeys schemaName tableName with
  | error e0 =>
    rw [hp] at h
    exact Or.inr (Or.inl ⟨e0, rfl, (Except.error.inj h).symm⟩)
  | ok pks =>
  rw [hp] at h
  cases hi : db.getIndexes schemaName tableName with
  | error e0 =>
    rw [hi] at h
    exact Or.inr (Or.inr (Or.inl ⟨e0, rfl, (Except.error.inj h).symm⟩))
  | ok idxs =>
  rw [hi] at h
  cases hf : db.getForeignKeys schemaName tableName with
  | error e0 =>
    rw [hf] at h
    exact Or.inr (Or.inr (Or.inr ⟨e0, rfl, (Except.error.inj h).symm⟩))
  | ok fks => rw [hf] at h; exact absurd h (by simp)

theorem introspectTablesLoop_ok (db : DBOracle) (schemaName : String) :
    ∀ (ts : List String) (tables : List Table),
      introspectTablesLoop db schemaName ts = .ok tables →
      ∀ t ∈ ts, ∃ tb, introspectTable db schemaName t = .ok tb := by
  intro ts
  induction ts with
  | nil => intro tables _ t ht; exact absurd ht (List.not_mem_nil t)
  | cons t0 ts ih =>
    intro tables h t ht
    simp only [introspectTablesLoop] at h
    cases h1 : introspectTable db schemaName t0 with
    | error e => rw [h1] at h; exact absurd h (by simp)
    | ok tb =>
      rw [h1] at h
      cases h2 : introspectTablesLoop db schemaName ts with
      | error e => rw [h2] at h; exact absurd h (by simp)
      | ok rest =>
        rcases List.mem_cons.mp ht with hh | hh
        · exact ⟨tb, hh ▸ h1⟩
        · exact ih rest h2 t hh

theorem introspectTablesLoop_error (db : DBOracle) (schemaName : String) :
    ∀ (ts : List String) (e : String),
      introspectTablesLoop db schemaName ts = .error e →
      ∃ t ∈ ts, introspectTable db schemaName t = .error e := by
  intro ts
  induction ts with
  | nil => intro e h; exact absurd h (by simp [introspectTablesLoop])
  | cons t0 ts ih =>
    intro e h
    simp only [introspectTablesLoop] at h
    cases h1 : introspectTable db schemaName t0 with
    | error e0 =>
      rw [h1] at h
      exact ⟨t0, List.mem_cons_self t0 ts, (Except.error.inj h) ▸ h1⟩
    | ok tb =>
      rw [h1] at h
      cases h2 : introspectTablesLoop db schemaName ts with
      | error e0 =>
        rw [h2] at h
        obtain ⟨t, ht, herr⟩ := ih e0 h2
        exact ⟨t, List.mem_cons_of_mem t0 ht, (Except.error.inj h) ▸ herr⟩
      | ok rest => rw [h2] at h; exact absurd h (by simp)

theorem introspectSchemasLoop_ok (db : DBOracle) :
    ∀ (names : List String) (tables : List Table),
      introspectSchemasLoop db names = .ok tables →
      ∀ s ∈ names, ∃ ts tbs, db.getTables s = .ok ts ∧
        introspectTablesLoop db s ts = .ok tbs := by
  intro names
  induction names with
  | nil => intro tables _ s hs; exact absurd hs (List.not_mem_nil s)
  | cons s0 names ih =>
    intro tables h s hs
    simp only [introspectSchemasLoop] at h
    cases h1 : db.getTables s0 with
    | error e => simp only [h1] at h; exact absurd h (by simp)
    | ok ts0 =>
      simp only [h1] at h
      cases h2 : introspectTablesLoop db s0 ts0 with
      | error e => simp only [h2] at h; exact absurd h (by simp)
      | ok tbs0 =>
        simp only [h2] at h
        cases h3 : introspectSchemasLoop db names with
        | error e => simp only [h3] at h; exact absurd h (by simp)
        | ok rest =>
          rcases List.mem_cons.mp hs with hh | hh
          · exact ⟨ts0, tbs0, hh ▸ h1, hh ▸ h2⟩
          · exact ih rest h3 s hh

theorem introspectSchemasLoop_error (db : DBOracle) :
    ∀ (names : List String) (e : String),
      introspectSchemasLoop db names = .error e →
      ∃ s ∈ names,
        (∃ cause, db.getTables s = .error cause ∧
          e = "failed to get tables for schema " ++ s ++ ": " ++ cause) ∨
        (∃ ts, db.getTables s = .ok ts ∧
          ∃ t ∈ ts, introspectTable db s t = .error e) := by
  intro names
  induction names with
  | nil => intro e h; exact absurd h (by simp [introspectSchemasLoop])
  | cons s0 names ih =>
    intro e h
    simp only [introspectSchemasLoop] at h
    cases h1 : db.getTables s0 with
    | error e0 =>
      simp only [h1] at h
      exact ⟨s0, List.mem_cons_self s0 names,
        Or.inl ⟨e0, h1, (Except.error.inj h).symm⟩⟩
    | ok ts0 =>
      simp only [h1] at h
      cases h2 : introspectTablesLoop db s0 ts0 with
      | error e0 =>
        simp only [h2] at h
        obtain ⟨t, ht, herr⟩ := introspectTablesLoop_error db s0 ts0 e0 h2
        exact ⟨s0, List.mem_cons_self s0 names,
          Or.inr ⟨ts0, h1, t, ht, (Except.error.inj h) ▸ herr⟩⟩
      | ok tbs0 =>
        simp only [h2] at h
        cases h3 : introspectSchemasLoop db names with
        | error e0 =>
          simp only [h3] at h
          obtain ⟨s, hs, hshape⟩ := ih e0 h3
          exact ⟨s, List.mem_cons_of_mem s0 hs, (Except.error.inj h) ▸ hshape⟩
        | ok rest => simp only [h3] at h; exact absurd h (by simp)

/-! ### Claim theorems -/

set_option maxRecDepth 8192 in
/-- Claim C1, counterexample: for the two-table users/posts model of the
scenario, `Generate` does not produce the text the claim asserts — the
claim's text lists the users block before the posts block, but `Generate`
sorts tables alphabetically, so posts is rendered first. -/
theorem C1_counterexample : (Generate c1schema).1 ≠ c1claimText := by decide

set_option maxRecDepth 8192 in
/-- Claim C1, amended: for the scenario model, `Generate` produces exactly
the claimed table blocks, index block and reference line, with columns
listed in alphabetical order, but with the table blocks in alphabetical
table-name order (posts before users), not users first. -/
theorem C1_amended : (Generate c1schema).1 = c1codeText := by decide

/-- Claim C4: FilterTables keeps exactly the tables whose bare name is not
in the exclusion list (case-sensitive string equality, not schema
qualified), in their original relative order; kept plus removed counts sum
to the original count; and any table whose name is excluded is absent from
the result regardless of its schema. -/
theorem C4_filter_tables (s : Schema) (excludeTables : List String) :
    (FilterTables s excludeTables).Tables
        = s.Tables.filter (fun t => !(decide (t.Name ∈ excludeTables))) ∧
    (FilterTables s excludeTables).Tables.length
        + (s.Tables.filter (fun t => decide (t.Name ∈ excludeTables))).length
        = s.Tables.length ∧
    (∀ t ∈ s.Tables, t.Name ∈ excludeTables → t ∉ (FilterTables s excludeTables).Tables) := by
  refine ⟨filterTables_eq s excludeTables, ?_, ?_⟩
  · rw [filterTables_eq]
    exact length_filter_split (fun t => decide (t.Name ∈ excludeTables)) s.Tables
  · intro t ht hmem hcontra
    rw [filterTables_eq] at hcontra
    have hpred := (List.mem_filter.mp hcontra).2
    simp at hpred
    exact hpred hmem

/-- Witness for C4: the users table is excluded from the concrete scenario
model by name. -/
theorem C4_witness :
    c1users ∈ c1schema.Tables ∧ c1users.Name ∈ ["users"] ∧
    c1users ∉ (FilterTables c1schema ["users"]).Tables :=
  ⟨List.mem_cons_self _ _, by decide,
    (C4_filter_tables c1schema ["users"]).2.2 c1users (List.mem_cons_self _ _) (by decide)⟩

/-- Claim C6: a column whose default expression begins with `nextval(`
renders the `increment` attribute and no `default:` attribute; a column
with any other default renders `default:` with the raw expression
verbatim; a column with no default gets neither attribute. -/
theorem C6_column_default_attributes (column : Column) :
    (∀ d, column.DefaultValue = some d → startsWithStr d ("nextval(") = true →
      ("increment" ∈ columnAttributes column ∧
        ∀ a ∈ columnAttributes column, startsWithStr a ("default:") = false)) ∧
    (∀ d, column.DefaultValue = some d → startsWithStr d ("nextval(") = false →
      ("default: `" ++ d ++ "`") ∈ columnAttributes column) ∧
    (column.DefaultValue = none →
      ("increment" ∉ columnAttributes column ∧
        ∀ a ∈ columnAttributes column, startsWithStr a ("default:") = false)) := by
  refine ⟨?_, ?_, ?_⟩
  · intro d hd hpre
    by_cases h1 : column.IsPrimaryKey <;> by_cases h2 : column.Nullable <;>
      simp [columnAttributes, hd, hpre, h1, h2] <;> try decide
  · intro d hd hpre
    by_cases h1 : column.IsPrimaryKey <;> by_cases h2 : column.Nullable <;>
      simp [columnAttributes, hd, hpre, h1, h2]
  · intro hd
    by_cases h1 : column.IsPrimaryKey <;> by_cases h2 : column.Nullable <;>
      simp [columnAttributes, hd, h1, h2] <;> try decide

/-- Witness for C6: a concrete `nextval(...)` column renders `increment`
and no `default:` attribute. -/
theorem C6_witness :
    c6column.DefaultValue = some ("nextval(public.users_id_seq::regclass)") ∧
    startsWithStr ("nextval(public.users_id_seq::regclass)") ("nextval(") = true ∧
    ("increment" ∈ columnAttributes c6column ∧
      ∀ a ∈ columnAttributes c6column, startsWithStr a ("default:") = false) :=
  ⟨rfl, rfl,
    (C6_column_default_attributes c6column).1 ("nextval(public.users_id_seq::regclass)")
      rfl rfl⟩

/-- Claim C7: concrete examples of the default PostgreSQL-to-DBML type
mapping, including length/precision modifiers, the array-of-custom-type
fallback to text, and the unknown-base-type pass-through. -/
theorem C7_typemap_examples :
    MapPostgreSQLTypeToDBML ("integer") ("int4") none none none = "int" ∧
    MapPostgreSQLTypeToDBML ("character varying") ("varchar") (some 255) none none
      = "varchar(255)" ∧
    MapPostgreSQLTypeToDBML ("numeric") ("numeric") none (some 10) (some 2)
      = "decimal(10,2)" ∧
    MapPostgreSQLTypeToDBML ("user-defined") ("_int4") none none none = "text" ∧
    MapPostgreSQLTypeToDBML ("custom_type") ("custom_type") none none none = "custom_type" :=
  ⟨rfl, rfl, rfl, rfl, rfl⟩

/-- Claim C8: with a non-nil custom-mapping table, MapType returns the
override for the lower-cased base type first, then for the lower-cased UDT
name, and falls back to the default mapping only when neither matches or
the table is nil. -/
theorem C8_custom_mapping (m : PostgreSQLTypeMapper) (dataType udtName : String)
    (charMaxLength numericPrecision numericScale : Option Int) :
    (∀ cm, m.CustomMappings = some cm →
      ((∀ v, mapLookupStr cm (toLowerStr dataType) = some v →
          m.MapType dataType udtName charMaxLength numericPrecision numericScale = v) ∧
        (∀ v, mapLookupStr cm (toLowerStr dataType) = none →
            mapLookupStr cm (toLowerStr udtName) = some v →
          m.MapType dataType udtName charMaxLength numericPrecision numericScale = v) ∧
        (mapLookupStr cm (toLowerStr dataType) = none →
            mapLookupStr cm (toLowerStr udtName) = none →
          m.MapType dataType udtName charMaxLength numericPrecision numericScale
            = MapPostgreSQLTypeToDBML dataType udtName charMaxLength numericPrecision
                numericScale))) ∧
    (m.CustomMappings = none →
      m.MapType dataType udtName charMaxLength numericPrecision numericScale
        = MapPostgreSQLTypeToDBML dataType udtName charMaxLength numericPrecision
            numericScale) := by
  refine ⟨?_, ?_⟩
  · intro cm hcm
    refine ⟨?_, ?_, ?_⟩
    · intro v hv
      simp [PostgreSQLTypeMapper.MapType, hcm, hv]
    · intro v h1 h2
      simp [PostgreSQLTypeMapper.MapType, hcm, h1, h2]
    · intro h1 h2
      simp [PostgreSQLTypeMapper.MapType, hcm, h1, h2]
  · intro hcm
    simp [PostgreSQLTypeMapper.MapType, hcm]

/-- Witness for C8: a concrete mapper overriding citext to varchar. -/
theorem C8_witness :
    c8mapper.CustomMappings = some [("citext", "varchar")] ∧
    mapLookupStr [("citext", "varchar")] (toLowerStr ("citext")) = some "varchar" ∧
    c8mapper.MapType ("citext") ("citext") none none none = "varchar" :=
  ⟨rfl, rfl,
    ((C8_custom_mapping c8mapper ("citext") ("citext") none none none).1
        [("citext", "varchar")] rfl).1 ("varchar") rfl⟩

set_option maxRecDepth 8192 in
/-- Claim C2, counterexample: permuting reference order inside a table can
change the output.  Two references identical on the whole reference sort
key (same qualified tables and first columns) but with different delete
actions compare equal in the sort, so their input order is kept and the
two Ref lines swap. -/
theorem C2_counterexample :
    SchemaPerm c2schemaA c2schemaB ∧ generateOut c2schemaA ≠ generateOut c2schemaB := by
  constructor
  · exact ⟨[c2table [c2ref2, c2ref1]],
      List.Forall₂.cons
        ⟨rfl, rfl, rfl, List.Perm.refl _, List.Perm.refl _, by decide⟩
        List.Forall₂.nil,
      List.Perm.refl _⟩
  · decide

/-- Claim C2, amended: permuting the Tables slice and, within each table,
the Columns, Indexes and References slices leaves the output of `Generate`
unchanged, provided the model satisfies the distinctness invariants every
introspected model has: pairwise-distinct (schema, name) table keys,
distinct column names and index names within each table, and references
with nonempty column lists and pairwise-distinct sort keys (qualified
source table, first source column, qualified target table, first target
column) across the model. -/
theorem C2_amended (s s' : Schema)
    (hperm : SchemaPerm s s')
    (hndT : (s.Tables.map tableKey).Nodup)
    (hndC : ∀ t ∈ s.Tables, (t.Columns.map Column.Name).Nodup)
    (hndI : ∀ t ∈ s.Tables, (t.Indexes.map Index.Name).Nodup)
    (hndR : ((allRefs s).map refKey).Nodup)
    (hne : ∀ r ∈ allRefs s, r.FromColumns ≠ [] ∧ r.ToColumns ≠ []) :
    Generate s = Generate s' := by
  obtain ⟨m, hf, pm⟩ := hperm
  have hsorted : List.Forall₂ TablePerm (goSort lessTable s.Tables)
      (goSort lessTable s'.Tables) :=
    forall₂_goSort tableKey lessTable hf pm (fun x y h => tablePerm_key h)
      lessTable_agree hndT
  have htp : (goSort lessTable s.Tables).map (fun t => generateTable t ++ "\n")
      = (goSort lessTable s'.Tables).map (fun t => generateTable t ++ "\n") := by
    refine map_eq_of_forall₂ hsorted ?_
    intro x hx y hr
    have hxmem : x ∈ s.Tables := mem_goSort.mp hx
    rw [generateTable_congr hr (hndC x hxmem) (hndI x hxmem)]
  have hps : ((goSort lessTable s.Tables).flatMap fun t => t.References).Perm (allRefs s) :=
    List.Perm.flatMap_right _ (goSort_perm lessTable s.Tables)
  have hpermRefs : ((goSort lessTable s.Tables).flatMap fun t => t.References).Perm
      ((goSort lessTable s'.Tables).flatMap fun t => t.References) :=
    forall₂_refs_perm hsorted
  have hagRef : ∀ x ∈ ((goSort lessTable s.Tables).flatMap fun t => t.References),
      ∀ y ∈ ((goSort lessTable s.Tables).flatMap fun t => t.References),
      lessRef x y = decide (refKey x < refKey y) := by
    intro x hx y hy
    obtain ⟨hx1, hx2⟩ := hne x (hps.mem_iff.mp hx)
    obtain ⟨hy1, hy2⟩ := hne y (hps.mem_iff.mp hy)
    exact lessRef_agree hx1 hx2 hy1 hy2
  have hndR' : (((goSort lessTable s.Tables).flatMap fun t => t.References).map
      refKey).Nodup :=
    (hps.map refKey).symm.nodup hndR
  have hsr : goSort lessRef ((goSort lessTable s.Tables).flatMap fun t => t.References)
      = goSort lessRef ((goSort lessTable s'.Tables).flatMap fun t => t.References) :=
    goSort_eq_of_perm refKey lessRef hpermRefs hagRef hndR'
  show (generateOut s, (none : Option String)) = (generateOut s', none)
  refine congrArg (fun o => (o, (none : Option String))) ?_
  simp only [generateOut]
  rw [foldl_append_references, foldl_append_references, List.nil_append, List.nil_append,
    htp, hsr]

set_option maxRecDepth 8192 in
/-- Witness for the amended C2: the scenario model with tables reordered
and the users columns reordered produces identical output. -/
theorem C2_witness :
    SchemaPerm c1schema c1schemaPerm ∧ Generate c1schema = Generate c1schemaPerm := by
  have hperm : SchemaPerm c1schema c1schemaPerm :=
    ⟨[c1usersPerm, c1posts],
      List.Forall₂.cons ⟨rfl, rfl, rfl, by decide, by decide, by decide⟩
        (List.Forall₂.cons
          ⟨rfl, rfl, rfl, List.Perm.refl _, List.Perm.refl _, List.Perm.refl _⟩
          List.Forall₂.nil),
      by decide⟩
  exact ⟨hperm,
    C2_amended c1schema c1schemaPerm hperm (by decide) (by decide) (by decide)
      (by decide) (by decide)⟩

/-- Claim C3: rows with the same source/target tuple collapse into exactly
one Reference (the result's dedup keys are strictly sorted, hence
duplicate-free, and cover exactly the input rows' dedup keys); and for two
rows of one tuple carrying CASCADE and NO ACTION, the merged reference
keeps CASCADE regardless of processing order, for the delete rule and
symmetrically for the update rule. -/
theorem C3_fk_dedup (schemaName tableName : String) :
    (∀ rows : List FKRow,
      ((getForeignKeys schemaName tableName rows).map refKeyOf).Pairwise
        (fun a b => a < b) ∧
      (∀ k, k ∈ (getForeignKeys schemaName tableName rows).map refKeyOf ↔
        k ∈ rows.map (rowKey schemaName tableName))) ∧
    (∀ r1 r2 : FKRow,
      r1.columnName = r2.columnName →
      r1.foreignTableSchema = r2.foreignTableSchema →
      r1.foreignTableName = r2.foreignTableName →
      r1.foreignColumnName = r2.foreignColumnName →
      ((r1.deleteRule = "CASCADE" → r2.deleteRule = "NO ACTION" →
        ((getForeignKeys schemaName tableName [r1, r2]).map (fun r => r.OnDelete)
            = ["CASCADE"] ∧
          (getForeignKeys schemaName tableName [r2, r1]).map (fun r => r.OnDelete)
            = ["CASCADE"])) ∧
        (r1.updateRule = "CASCADE" → r2.updateRule = "NO ACTION" →
          ((getForeignKeys schemaName tableName [r1, r2]).map (fun r => r.OnUpdate)
              = ["CASCADE"] ∧
            (getForeignKeys schemaName tableName [r2, r1]).map (fun r => r.OnUpdate)
              = ["CASCADE"])))) := by
  constructor
  · intro rows
    obtain ⟨hnd, hkey, hlen, hkeys⟩ :=
      foldl_fk_invariant schemaName tableName rows [] (by simp) (by simp) (by simp)
    have hchar := getForeignKeys_keys schemaName tableName rows
    constructor
    · rw [hchar]
      exact pairwise_goSort (fun k : String => k) stringLt _
        (fun x _ y _ => (stringLt_eq_decide x y).trans (decide_eq_decide.mpr Iff.rfl))
        (by simpa using hnd)
    · intro k
      rw [hchar, mem_goSort, hkeys k]
      simp
  · intro r1 r2 h1 h2 h3 h4
    have hkeq : rowKey schemaName tableName r1 = rowKey schemaName tableName r2 := by
      unfold rowKey fkKey
      rw [h1, h2, h3, h4]
    constructor
    · intro hd1 hd2
      constructor
      · rw [getForeignKeys_pair_eq schemaName tableName r1 r2 hkeq]
        simp [hd1, hd2]
      · rw [getForeignKeys_pair_eq schemaName tableName r2 r1 hkeq.symm]
        simp [hd1, hd2]
    · intro hu1 hu2
      constructor
      · rw [getForeignKeys_pair_eq schemaName tableName r1 r2 hkeq]
        simp [hu1, hu2]
      · rw [getForeignKeys_pair_eq schemaName tableName r2 r1 hkeq.symm]
        simp [hu1, hu2]

/-- Witness for C3: two concrete rows of one constraint tuple with CASCADE
and NO ACTION delete rules merge to CASCADE in both processing orders. -/
theorem C3_witness :
    c3row1.columnName = c3row2.columnName ∧
    c3row1.deleteRule = "CASCADE" ∧ c3row2.deleteRule = "NO ACTION" ∧
    (getForeignKeys ("public") ("posts") [c3row1, c3row2]).map (fun r => r.OnDelete)
      = ["CASCADE"] ∧
    (getForeignKeys ("public") ("posts") [c3row2, c3row1]).map (fun r => r.OnDelete)
      = ["CASCADE"] :=
  ⟨rfl, rfl, rfl,
    (((C3_fk_dedup ("public") ("posts")).2 c3row1 c3row2 rfl rfl rfl rfl).1 rfl rfl).1,
    (((C3_fk_dedup ("public") ("posts")).2 c3row1 c3row2 rfl rfl rfl rfl).1 rfl rfl).2⟩

/-- Claim C10: every reference produced by the foreign-key introspection has
exactly one source column and one target column. -/
theorem C10_single_column_refs (schemaName tableName : String) (rows : List FKRow) :
    ∀ ref ∈ getForeignKeys schemaName tableName rows,
      ref.FromColumns.length = 1 ∧ ref.ToColumns.length = 1 := by
  intro ref href
  obtain ⟨-, -, hlen, -⟩ :=
    foldl_fk_invariant schemaName tableName rows [] (by simp) (by simp) (by simp)
  simp only [getForeignKeys] at href
  obtain ⟨k, hk, hlook⟩ := List.mem_filterMap.mp href
  have hx := hlen (k, ref) (mapLookupRef_some_mem hlook)
  simpa using hx

/-- Witness for C10: the reference introspected from a concrete catalog row
has single-column endpoints. -/
theorem C10_witness :
    c10ref ∈ getForeignKeys ("public") ("posts") [c3row1] ∧
    (c10ref.FromColumns.length = 1 ∧ c10ref.ToColumns.length = 1) :=
  ⟨by decide,
    C10_single_column_refs ("public") ("posts") [c3row1] c10ref (by decide)⟩

/-- Claim C5: introspection is all-or-nothing.  If it returns a schema,
every per-table catalog query of every table of every requested schema
succeeded (so a failure anywhere means no schema value is returned, only
an error); and any returned error wraps the underlying cause and names the
failing schema, table and operation. -/
theorem C5_introspect_errors (db : DBOracle) (schemaNames : List String) :
    (∀ result, introspectSchemas db schemaNames = .ok result →
      ∀ s ∈ (if schemaNames.length = 0 then ["public"] else schemaNames),
        ∃ ts, db.getTables s = .ok ts ∧
          ∀ t ∈ ts, (∃ v, db.getColumns s t = .ok v) ∧
            (∃ v, db.getPrimaryKeys s t = .ok v) ∧
            (∃ v, db.getIndexes s t = .ok v) ∧
            (∃ v, db.getForeignKeys s t = .ok v)) ∧
    (∀ e, introspectSchemas db schemaNames = .error e →
      ∃ s ∈ (if schemaNames.length = 0 then ["public"] else schemaNames),
        (∃ cause, db.getTables s = .error cause ∧
          e = "failed to get tables for schema " ++ s ++ ": " ++ cause) ∨
        (∃ t cause,
          ((db.getColumns s t = .error cause ∧
            e = "failed to get columns for table " ++ s ++ "." ++ t ++ ": " ++ cause) ∨
           (db.getPrimaryKeys s t = .error cause ∧
            e = "failed to get primary keys for table " ++ s ++ "." ++ t ++ ": " ++ cause) ∨
           (db.getIndexes s t = .error cause ∧
            e = "failed to get indexes for table " ++ s ++ "." ++ t ++ ": " ++ cause) ∨
           (db.getForeignKeys s t = .error cause ∧
            e = "failed to get foreign keys for table " ++ s ++ "." ++ t ++ ": "
              ++ cause)))) := by
  constructor
  · intro result h s hs
    simp only [introspectSchemas] at h
    cases hl : introspectSchemasLoop db (if schemaNames.length = 0 then ["public"]
        else schemaNames) with
    | error e => rw [hl] at h; exact absurd h (by simp)
    | ok tables =>
      obtain ⟨ts, tbs, hts, htl⟩ := introspectSchemasLoop_ok db _ tables hl s hs
      refine ⟨ts, hts, ?_⟩
      intro t ht
      obtain ⟨tb, htb⟩ := introspectTablesLoop_ok db s ts tbs htl t ht
      exact introspectTable_ok_queries db s t tb htb
  · intro e h
    simp only [introspectSchemas] at h
    cases hl : introspectSchemasLoop db (if schemaNames.length = 0 then ["public"]
        else schemaNames) with
    | ok tables => rw [hl] at h; exact absurd h (by simp)
    | error e0 =>
      rw [hl] at h
      obtain ⟨s, hs, hshape⟩ := introspectSchemasLoop_error db _ e0 hl
      refine ⟨s, hs, ?_⟩
      rcases hshape with ⟨cause, hc, he⟩ | ⟨ts, hts, t, ht, herr⟩
      · exact Or.inl ⟨cause, hc, (Except.error.inj h) ▸ he⟩
      · refine Or.inr ⟨t, ?_⟩
        rcases introspectTable_error_shape db s t e0 herr with
          ⟨cause, hq, he⟩ | ⟨cause, hq, he⟩ | ⟨cause, hq, he⟩ | ⟨cause, hq, he⟩
        · exact ⟨cause, Or.inl ⟨hq, (Except.error.inj h) ▸ he⟩⟩
        · exact ⟨cause, Or.inr (Or.inl ⟨hq, (Except.error.inj h) ▸ he⟩)⟩
        · exact ⟨cause, Or.inr (Or.inr (Or.inl ⟨hq, (Except.error.inj h) ▸ he⟩))⟩
        · exact ⟨cause, Or.inr (Or.inr (Or.inr ⟨hq, (Except.error.inj h) ▸ he⟩))⟩

/-- Witness for C5: a concrete oracle whose columns query fails makes the
whole introspection fail with the wrapping error, and the error is
accounted for by the failing schema, table and operation. -/
theorem C5_witness :
    introspectSchemas c5db ["public"]
        = .error ("failed to get columns for table public.users: boom") ∧
    (∃ s ∈ (["public"] : List String),
      (∃ cause, c5db.getTables s = .error cause ∧
        "failed to get columns for table public.users: boom"
          = "failed to get tables for schema " ++ s ++ ": " ++ cause) ∨
      (∃ t cause,
        ((c5db.getColumns s t = .error cause ∧
          "failed to get columns for table public.users: boom"
            = "failed to get columns for table " ++ s ++ "." ++ t ++ ": " ++ cause) ∨
         (c5db.getPrimaryKeys s t = .error cause ∧
          "failed to get columns for table public.users: boom"
            = "failed to get primary keys for table " ++ s ++ "." ++ t ++ ": " ++ cause) ∨
         (c5db.getIndexes s t = .error cause ∧
          "failed to get columns for table public.users: boom"
            = "failed to get indexes for table " ++ s ++ "." ++ t ++ ": " ++ cause) ∨
         (c5db.getForeignKeys s t = .error cause ∧
          "failed to get columns for table public.users: boom"
            = "failed to get foreign keys for table " ++ s ++ "." ++ t ++ ": "
              ++ cause)))) :=
  ⟨rfl,
    (C5_introspect_errors c5db ["public"]).2
      ("failed to get columns for table public.users: boom") rfl⟩

/-- Claim C9: the formatter and filter are pure and total — `Generate`
always returns a nil error, an empty schema formats to empty output, and
filtering an empty schema yields a schema with no tables. -/
theorem C9_pure_total :
    (∀ s : Schema, (Generate s).2 = none) ∧
    (Generate ⟨[]⟩).1 = "" ∧
    (∀ excludeTables : List String, (FilterTables ⟨[]⟩ excludeTables).Tables = []) :=
  ⟨fun _ => rfl, rfl, fun _ => rfl⟩

end DBML
